import Mathlib

/-!
Shallow embedding of the `azero` game repository (src/game.py, src/util.py)
and verification of its specification claims.

Conventions of the embedding:
* A Python transition triple `(next_state, next_player, outcome)` becomes
  `Option σ × Option Int × Option Int`.
* A Python function that can fail an `assert`, raise an `IndexError`, or
  fall off the end of its body (returning `None` rather than a triple)
  returns `Option` of the triple: `none` models "no triple was produced".
* Python tuples of ints become `List Int`; actions used as indices become
  `Nat`.
* Python `%` on ints with a positive modulus agrees with `Int.emod`
  (Lean's `%` on `Int`), both returning a value in `[0, modulus)`.
-/

set_option synthInstance.maxSize 4000

namespace AZero

/-- A transition result `(next_state, next_player, outcome)` as documented by
`Game.step` in game.py. -/
abbrev Triple (σ : Type) : Type := Option σ × Option Int × Option Int

/-- `true` iff a `step` result is a terminal triple `(None, None, outcome)`. -/
def isTerminal {σ : Type} : Option (Triple σ) → Bool
  | some (none, none, some _) => true
  | _ => false

namespace Narrow

/-- `Narrow.valid`: `tuple(i < state[0] for i in range(3))`. -/
def valid (state : List Int) : List Bool :=
  (List.range 3).map (fun i => decide ((i : Int) < state.getD 0 0))

/-- `Narrow.step`: asserts `action < state[0]` (`none` if the assert fires),
then action `0` is an immediate loss, otherwise continue with state
`(action,)` and player `1`. -/
def step (state : List Int) (action : Nat) : Option (Triple (List Int)) :=
  if (action : Int) < state.getD 0 0 then
    if action = 0 then some (none, none, some (-1))
    else some (some [(action : Int)], some 1, none)
  else none

/-- A run of `Narrow` continuation steps: `chain s acts = some s2` holds when
every action in `acts` is marked valid in its state and every step returned a
continuation, ending in state `s2`. -/
def chain : List Int → List Nat → Option (List Int)
  | s, [] => some s
  | s, a :: rest =>
    if (valid s).getD a false = true then
      match step s a with
      | some (some s2, _, none) => chain s2 rest
      | _ => none
    else none

end Narrow

namespace RockPaperScissors

/-- `RockPaperScissors.start`: `(-1,)`. -/
def start : List Int := [-1]

/-- `RockPaperScissors.valid`: `(True,) * 3`. -/
def valid (_state : List Int) : List Bool := [true, true, true]

/-- `RockPaperScissors.step`: a negative recorded symbol means the first
player is to move, so record the action; otherwise resolve draw / P2 win /
P1 win.  The Python body has no final `return`, so when none of the four
conditions holds it returns `None` (no triple): modelled by `none`. -/
def step (state : List Int) (action : Int) : Option (Triple (List Int)) :=
  if state.getD 0 0 < 0 then some (some [action], some (-1), none)
  else if state.getD 0 0 = action then some (none, none, some 0)
  else if state.getD 0 0 = (action - 1) % 3 then some (none, none, some (-1))
  else if state.getD 0 0 = (action + 1) % 3 then some (none, none, some 1)
  else none

end RockPaperScissors

namespace TicTacToe

/-- `TicTacToe.WINS`: the eight winning line triples. -/
def WINS : List (Nat × Nat × Nat) :=
  [(0, 1, 2), (0, 3, 6), (0, 4, 8), (1, 4, 7),
   (2, 4, 6), (2, 5, 8), (3, 4, 5), (6, 7, 8)]

/-- `TicTacToe.START`: `(0,) * 9`. -/
def START : List Int := List.replicate 9 0

/-- `TicTacToe.valid`: `tuple(s == 0 for s in state)`. -/
def valid (state : List Int) : List Bool := state.map (fun s => s == 0)

/-- `TicTacToe.step`: asserts `state[action] == 0` (`none` models the assert
firing, and `none` likewise models the `IndexError` of an out-of-range
`state[action]` read); infers the mover from the board sum, places the
marker (`state.set action player` is the `enumerate` comprehension
replacing position `action`), scans `WINS` for a line of the mover's marker
(the Python `for ... break / else` is the first hit of `find?`, and any hit
gives the same result), else draw when no `0` cell remains, else
continuation.  Modelling boundary: the scan's board reads use `getD _ 0`,
which agrees with Python exactly on boards of length ≥ 9 (every `WINS`
index is ≤ 8, the domain of `START` and every board reachable from it);
for an artificially shorter board Python would raise `IndexError` inside
the scan, which this value-level model does not represent — so no theorem
below concludes that `step` produces a result on boards shorter than 9. -/
def step (state : List Int) (action : Nat) : Option (Triple (List Int)) :=
  if action < state.length ∧ state.getD action 1 = 0 then
    let player : Int := if state.sum ≠ 0 then -1 else 1
    let board := state.set action player
    match WINS.find? (fun t =>
        board.getD t.1 0 == board.getD t.2.1 0 &&
        board.getD t.2.1 0 == board.getD t.2.2 0 &&
        board.getD t.2.2 0 == player) with
    | some _ => some (none, none, some player)
    | none =>
      if board.contains 0 = false then some (none, none, some 0)
      else some (some board, some (-player), none)
  else none

/-- The spec's description of `TicTacToe.step` (§4.2 of the spec): mover is
`-1` if the sum of all cells is non-zero else `+1`; place the mover's marker
at `action`; win for the mover if any of the 8 line triples consists of three
cells equal to the mover's marker; else draw if no empty cell remains; else
continue with the updated board and the negated mover. -/
def stepSpec (state : List Int) (action : Nat) : Triple (List Int) :=
  let player : Int := if state.sum ≠ 0 then -1 else 1
  let board := state.set action player
  if WINS.any (fun t =>
      board.getD t.1 0 == player &&
      board.getD t.2.1 0 == player &&
      board.getD t.2.2 0 == player) then
    (none, none, some player)
  else if board.contains 0 = false then (none, none, some 0)
  else (some board, some (-player), none)

end TicTacToe

namespace Checkers

/-- Modelled from the spec: the external board-engine capability consumed by
the `Checkers` adapter (game.py imports it from outside this repository).
Per §6 of the spec it exposes a non-mutating `copy` and an `update` that
applies a move for a player side and reports illegality (here: the returned
`Bool` is the `illegal` flag, paired with the updated board).  Board and
move types are abstract. -/
structure Engine (β : Type) (μ : Type) where
  copy : β → β
  update : β → μ → String → Bool × β

/-- `Checkers.player_type`: `1 ↦ 'white'`, `-1 ↦ 'black'`, else
`ValueError`. -/
def player_type (p : Int) : Except String String :=
  if p = 1 then .ok "white"
  else if p = -1 then .ok "black"
  else .error "Invalid player value"

/-- `Checkers.step`: copies the board, applies `board.update`, raises
`ValueError` on an illegal move — and then falls off the end of the Python
function body, returning `None` rather than a transition triple.  `.ok ()`
models that `None`: the successful result carries no
`(next_state, next_player, outcome)`. -/
def step {β μ : Type} (eng : Engine β μ) (state : Int × β) (action : μ) :
    Except String Unit :=
  match player_type state.1 with
  | .error e => .error e
  | .ok side =>
    let board := eng.copy state.2
    let illegal := (eng.update board action side).1
    if illegal then .error "Illegal move" else .ok ()

end Checkers

namespace Memo

/-- Python `dict` lookup on the memoization cache, modelled on an
association list. -/
def lookup {α β : Type} [DecidableEq α] : List (α × β) → α → Option β
  | [], _ => none
  | p :: rest, k => if p.1 = k then some p.2 else lookup rest k

/-- `memoize`'s inner `memoized_func`, with the mutable `cache` dict made
an explicit argument and result.  Returns `(result, cache after the call,
number of calls to the underlying `func` made by this invocation)`:
Python computes `func(*args)` only when the key is absent, stores it, and
answers from the cache. -/
def memoized_func {α β : Type} [DecidableEq α] (func : α → β)
    (cache : List (α × β)) (args : α) : β × List (α × β) × Nat :=
  match lookup cache args with
  | some b => (b, cache, 0)
  | none => (func args, (args, func args) :: cache, 1)

/-- The cache only holds results of `func`: the invariant that makes a
memoization cache answer correctly. -/
def Cached {α β : Type} (func : α → β) (cache : List (α × β)) : Prop :=
  ∀ p ∈ cache, p.2 = func p.1

end Memo

namespace Util

/-- `numpy`'s `x.max()` over a nonempty vector: the maximum element. -/
def npmax (x : List ℚ) : ℚ := x.foldr max (x.headD 0)

/-- The intermediate `e = np.exp(x - x.max()) * mask` of `softmax` in
util.py.  `np.exp` is transcendental; it is modelled by an abstract
function `E` (the theorems below assume only its positivity, which real
`exp` satisfies), and floats by `ℚ`. -/
def maskedExp (E : ℚ → ℚ) (x mask : List ℚ) : List ℚ :=
  List.zipWith (fun xi mi => E (xi - npmax x) * mi) x mask

/-- `softmax(x, mask)` from util.py: `e / e.sum()` elementwise.  The
function is total: numpy elementwise division raises no exception, so an
all-zero mask reaches the division with a zero denominator (IEEE `0/0`,
i.e. `NaN`; Lean's total `/` renders it as `0`) instead of an error. -/
def softmax (E : ℚ → ℚ) (x mask : List ℚ) : List ℚ :=
  (maskedExp E x mask).map (fun v => v / (maskedExp E x mask).sum)

end Util

end AZero

open AZero

/-! ## Claim theorems -/

/-- C3: for every recorded first-player symbol `r ∈ {0,1,2}` and every
second-player action `a ∈ {0,1,2}`, `step((r,), a)` returns outcome `0` when
`a = r`, outcome `-1` (second player wins) when `r = (a - 1) mod 3`, and
outcome `+1` (first player wins) when `r = (a + 1) mod 3`; and from the start
state `(-1,)` the first call records the action as the state and continues
with the second player (`-1`) to move. -/
theorem rps_step_resolves_precedence (r a : Int)
    (hr : r = 0 ∨ r = 1 ∨ r = 2) (ha : a = 0 ∨ a = 1 ∨ a = 2) :
    (a = r →
      RockPaperScissors.step [r] a = some (none, none, some 0)) ∧
    (r = (a - 1) % 3 →
      RockPaperScissors.step [r] a = some (none, none, some (-1))) ∧
    (r = (a + 1) % 3 →
      RockPaperScissors.step [r] a = some (none, none, some 1)) ∧
    RockPaperScissors.step RockPaperScissors.start a =
      some (some [a], some (-1), none) := by
  rcases hr with h | h | h <;> rcases ha with h2 | h2 | h2 <;>
    subst h h2 <;> decide

/-- C3 witness: the theorem at `r = 0`, `a = 2` (rock then scissors). -/
theorem rps_step_resolves_precedence_witness :
    ((2 : Int) = 0 → RockPaperScissors.step [0] 2 = some (none, none, some 0)) ∧
    ((0 : Int) = (2 - 1) % 3 →
      RockPaperScissors.step [0] 2 = some (none, none, some (-1))) ∧
    ((0 : Int) = (2 + 1) % 3 →
      RockPaperScissors.step [0] 2 = some (none, none, some 1)) ∧
    RockPaperScissors.step RockPaperScissors.start 2 =
      some (some [2], some (-1), none) :=
  rps_step_resolves_precedence 0 2 (by decide) (by decide)

/-- C4 counterexample: the claim says playing paper (`1`) then rock (`0`)
yields outcome `-1`, but after recording `1` the resolution of action `0`
satisfies `state[0] == (action + 1) % 3`, so the code returns `+1` (first
player wins — paper beats rock), not `-1`. -/
theorem rps_paper_rock_not_minus_one :
    RockPaperScissors.step [1] 0 ≠ some (none, none, some (-1)) ∧
    RockPaperScissors.step [1] 0 = some (none, none, some 1) := by
  decide

/-- C4 (amended): from `start() = (-1,)`, rock then scissors yields outcome
`+1`, rock then rock yields outcome `0`, and paper then rock yields outcome
`+1` (each first move records the symbol and hands the turn to player
`-1`). -/
theorem rps_concrete_plays :
    RockPaperScissors.step RockPaperScissors.start 0 =
      some (some [0], some (-1), none) ∧
    RockPaperScissors.step [0] 2 = some (none, none, some 1) ∧
    RockPaperScissors.step [0] 0 = some (none, none, some 0) ∧
    RockPaperScissors.step RockPaperScissors.start 1 =
      some (some [1], some (-1), none) ∧
    RockPaperScissors.step [1] 0 = some (none, none, some 1) := by
  decide

/-- C10: for every recorded symbol `r ∈ {0,1,2}` and action `a ∈ {0,1,2}`,
exactly one of `r = a`, `r = (a - 1) % 3`, `r = (a + 1) % 3` holds, and
`step((r,), a)` is a terminal triple `(None, None, outcome)` — in particular
the implicit fall-through branch of `RockPaperScissors.step` (which returns
no triple) is not reached. -/
theorem rps_step_total_on_domain (r a : Int)
    (hr : r = 0 ∨ r = 1 ∨ r = 2) (ha : a = 0 ∨ a = 1 ∨ a = 2) :
    ((r = a ∧ r ≠ (a - 1) % 3 ∧ r ≠ (a + 1) % 3) ∨
     (r ≠ a ∧ r = (a - 1) % 3 ∧ r ≠ (a + 1) % 3) ∨
     (r ≠ a ∧ r ≠ (a - 1) % 3 ∧ r = (a + 1) % 3)) ∧
    isTerminal (RockPaperScissors.step [r] a) = true := by
  rcases hr with h | h | h <;> rcases ha with h2 | h2 | h2 <;>
    subst h h2 <;> decide

/-- C10 witness: the theorem at `r = 1`, `a = 0`. -/
theorem rps_step_total_on_domain_witness :
    (((1 : Int) = 0 ∧ (1 : Int) ≠ (0 - 1) % 3 ∧ (1 : Int) ≠ (0 + 1) % 3) ∨
     ((1 : Int) ≠ 0 ∧ (1 : Int) = (0 - 1) % 3 ∧ (1 : Int) ≠ (0 + 1) % 3) ∨
     ((1 : Int) ≠ 0 ∧ (1 : Int) ≠ (0 - 1) % 3 ∧ (1 : Int) = (0 + 1) % 3)) ∧
    isTerminal (RockPaperScissors.step [1] 0) = true :=
  rps_step_total_on_domain 1 0 (by decide) (by decide)

/-- C1 (counter-evidence): `Checkers.step` never produces a transition
triple.  For any engine, board and action on which the engine reports the
move legal, `Checkers.step` returns the bare `None` of its fall-through
(`.ok ()`), which carries no `(next_state, next_player, outcome)` — so the
"exactly one of next-state / outcome present" contract cannot hold for the
`Checkers` variant. -/
theorem checkers_step_returns_no_triple {β μ : Type}
    (eng : Checkers.Engine β μ) (b : β) (m : μ)
    (hlegal : (eng.update (eng.copy b) m "white").1 = false) :
    Checkers.step eng (1, b) m = Except.ok () := by
  simp [Checkers.step, Checkers.player_type, hlegal]

/-- C1 witness: a concrete engine that accepts every move; `Checkers.step`
on a legal move evaluates to `.ok ()`, not a triple. -/
theorem checkers_step_returns_no_triple_witness :
    Checkers.step ⟨id, fun bd _ _ => (false, bd)⟩ ((1 : Int), ()) (0 : Nat) =
      Except.ok () :=
  checkers_step_returns_no_triple ⟨id, fun bd _ _ => (false, bd)⟩ () 0 rfl

/-- Helper: a successful lookup on a cache satisfying `Cached` returns the
underlying function's value. -/
theorem memo_lookup_cached {α β : Type} [DecidableEq α] (func : α → β) :
    ∀ (cache : List (α × β)), Memo.Cached func cache →
      ∀ (a : α) (b : β), Memo.lookup cache a = some b → b = func a := by
  intro cache
  induction cache with
  | nil => intro _ a b hl; simp [Memo.lookup] at hl
  | cons p rest ih =>
    intro hc a b hl
    rw [Memo.lookup] at hl
    by_cases h : p.1 = a
    · rw [if_pos h] at hl
      have hb : p.2 = b := by injection hl
      have hp : p.2 = func p.1 := hc p (List.mem_cons_self p rest)
      rw [← hb, hp, h]
    · rw [if_neg h] at hl
      exact ih (fun q hq => hc q (List.mem_cons_of_mem p hq)) a b hl

/-- C7: under the cache invariant (every stored pair is a `(key, func key)`
pair — true of the initially empty cache and preserved by every call), the
memoized wrapper returns `func args` for every argument, the invariant is
preserved, and a second invocation with the same argument makes zero calls
to the underlying `func` (it is served from the cache) while still
returning `func args`. -/
theorem memoize_returns_func_and_caches {α β : Type} [DecidableEq α]
    (func : α → β) (cache : List (α × β)) (args : α)
    (hc : Memo.Cached func cache) :
    (Memo.memoized_func func cache args).1 = func args ∧
    Memo.Cached func (Memo.memoized_func func cache args).2.1 ∧
    (Memo.memoized_func func
      (Memo.memoized_func func cache args).2.1 args).2.2 = 0 ∧
    (Memo.memoized_func func
      (Memo.memoized_func func cache args).2.1 args).1 = func args := by
  cases hl : Memo.lookup cache args with
  | some b =>
    have hb : b = func args := memo_lookup_cached func cache hc args b hl
    refine ⟨?_, ?_, ?_, ?_⟩ <;> simp [Memo.memoized_func, hl, hb, hc]
  | none =>
    have hc2 : Memo.Cached func ((args, func args) :: cache) := by
      intro q hq
      rcases List.mem_cons.mp hq with h | h
      · rw [h]
      · exact hc q h
    refine ⟨?_, ?_, ?_, ?_⟩ <;>
      simp [Memo.memoized_func, hl, Memo.lookup, hc2]

/-- C7 witness: the theorem at `func = Nat.succ`, empty cache, `args = 3`. -/
theorem memoize_returns_func_and_caches_witness :
    (Memo.memoized_func Nat.succ [] 3).1 = Nat.succ 3 ∧
    Memo.Cached Nat.succ (Memo.memoized_func Nat.succ [] 3).2.1 ∧
    (Memo.memoized_func Nat.succ
      (Memo.memoized_func Nat.succ [] 3).2.1 3).2.2 = 0 ∧
    (Memo.memoized_func Nat.succ
      (Memo.memoized_func Nat.succ [] 3).2.1 3).1 = Nat.succ 3 :=
  memoize_returns_func_and_caches Nat.succ [] 3 (by simp [Memo.Cached])

/-- Helper: reading a `true` entry of `Narrow.valid` means the action is one
of the three slots and is below the state's bound. -/
theorem narrow_valid_getD (s : List Int) (a : Nat)
    (h : (Narrow.valid s).getD a false = true) :
    a < 3 ∧ (a : Int) < s.getD 0 0 := by
  have ha : a < 3 := by
    by_contra hge
    push_neg at hge
    rw [List.getD_eq_default] at h
    · exact Bool.false_ne_true h
    · simpa [Narrow.valid] using hge
  refine ⟨ha, ?_⟩
  interval_cases a <;>
    simpa [Narrow.valid, List.range_succ] using h

/-- Helper: reading a `true` entry of `TicTacToe.valid` means the action is
in range and the indexed cell is empty. -/
theorem tictactoe_valid_getD (s : List Int) (a : Nat)
    (h : (TicTacToe.valid s).getD a false = true) :
    a < s.length ∧ s.getD a 1 = 0 := by
  have ha : a < s.length := by
    by_contra hge
    push_neg at hge
    rw [List.getD_eq_default] at h
    · exact Bool.false_ne_true h
    · simpa [TicTacToe.valid] using hge
  refine ⟨ha, ?_⟩
  have hlen : a < (TicTacToe.valid s).length := by
    simpa [TicTacToe.valid] using ha
  rw [List.getD_eq_getElem?_getD, List.getElem?_eq_getElem hlen] at h
  simp only [TicTacToe.valid, List.getElem_map, Option.getD_some] at h
  rw [List.getD_eq_getElem?_getD, List.getElem?_eq_getElem ha]
  simpa using h

/-- Helper: the `for/break/else` scan of `WINS` in `step` (a `find?` whose
predicate is the chained comparison `board[a] == board[b] == board[c] ==
player`) produces the same result as the spec's "some line has all three
cells equal to the mover's marker" (`any`), whichever line is found
first. -/
theorem find_wins_match (bd : List Int) (pl : Int) :
    (match TicTacToe.WINS.find? (fun t =>
        bd.getD t.1 0 == bd.getD t.2.1 0 &&
        bd.getD t.2.1 0 == bd.getD t.2.2 0 &&
        bd.getD t.2.2 0 == pl) with
      | some _ => (some (none, none, some pl) : Option (Triple (List Int)))
      | none =>
        if bd.contains 0 = false then some (none, none, some 0)
        else some (some bd, some (-pl), none)) =
    some (if TicTacToe.WINS.any (fun t =>
        bd.getD t.1 0 == pl && bd.getD t.2.1 0 == pl &&
        bd.getD t.2.2 0 == pl) = true then
      ((none, none, some pl) : Triple (List Int))
    else if bd.contains 0 = false then (none, none, some 0)
    else (some bd, some (-pl), none)) := by
  have hpq : ∀ t ∈ TicTacToe.WINS,
      (bd.getD t.1 0 == bd.getD t.2.1 0 &&
       bd.getD t.2.1 0 == bd.getD t.2.2 0 &&
       bd.getD t.2.2 0 == pl) =
      (bd.getD t.1 0 == pl && bd.getD t.2.1 0 == pl &&
       bd.getD t.2.2 0 == pl) := by
    intro t _
    apply Bool.eq_iff_iff.mpr
    simp only [Bool.and_eq_true, beq_iff_eq]
    omega
  cases hf : TicTacToe.WINS.find? (fun t =>
      bd.getD t.1 0 == bd.getD t.2.1 0 &&
      bd.getD t.2.1 0 == bd.getD t.2.2 0 &&
      bd.getD t.2.2 0 == pl) with
  | some t =>
    have hmem := List.mem_of_find?_eq_some hf
    have hq : TicTacToe.WINS.any (fun t =>
        bd.getD t.1 0 == pl && bd.getD t.2.1 0 == pl &&
        bd.getD t.2.2 0 == pl) = true :=
      List.any_eq_true.mpr ⟨t, hmem, by
        have h2 := List.find?_some hf
        rw [← hpq t hmem]
        exact h2⟩
    rw [hq]
    simp
  | none =>
    have hq : TicTacToe.WINS.any (fun t =>
        bd.getD t.1 0 == pl && bd.getD t.2.1 0 == pl &&
        bd.getD t.2.2 0 == pl) = false := by
      rw [List.any_eq_false]
      intro t ht
      rw [← hpq t ht]
      exact List.find?_eq_none.mp hf t ht
    rw [hq]
    rw [if_neg (by simp : ¬ (false = true))]
    by_cases hb : (0 : Int) ∈ bd <;> simp [hb]

/-- Helper: whenever the assert passes (`action` in range and the cell
empty), `TicTacToe.step` returns exactly the spec's transition. -/
theorem tictactoe_step_some (ts : List Int) (ta : Nat)
    (hta : ta < ts.length) (hcell : ts.getD ta 1 = 0) :
    TicTacToe.step ts ta = some (TicTacToe.stepSpec ts ta) := by
  rw [TicTacToe.step, TicTacToe.stepSpec, if_pos ⟨hta, hcell⟩]
  exact find_wins_match (ts.set ta (if ts.sum ≠ 0 then -1 else 1))
    (if ts.sum ≠ 0 then -1 else 1)

/-- C2: for every 9-cell board over `{-1, 0, +1}` and every action whose
cell is empty, `TicTacToe.step` behaves exactly as the spec describes
(`stepSpec`): the mover is `-1` if the board sum is non-zero else `+1`, the
mover's marker is placed at `action`, then a win for the mover if any of
the 8 winning line triples consists of three cells equal to the mover's
marker, else a draw (`0`) if no empty cell remains, else a continuation
with the updated board and the negated mover. -/
theorem tictactoe_step_follows_spec (state : List Int) (action : Nat)
    (hlen : state.length = 9)
    (_hcells : ∀ c ∈ state, c = -1 ∨ c = 0 ∨ c = 1)
    (ha : action < 9)
    (hempty : state.getD action 1 = 0) :
    TicTacToe.step state action = some (TicTacToe.stepSpec state action) :=
  tictactoe_step_some state action (by omega) hempty

/-- C2 witness: the theorem on the empty start board with action `4`. -/
theorem tictactoe_step_follows_spec_witness :
    TicTacToe.step TicTacToe.START 4 =
      some (TicTacToe.stepSpec TicTacToe.START 4) :=
  tictactoe_step_follows_spec TicTacToe.START 4 (by decide) (by decide)
    (by decide) (by decide)

/-- C8: an action marked `true` by `valid` satisfies the assertion guarding
`step` (the assertion-failure branch is unreachable): for `Narrow`,
`action < state[0]` — the condition `Narrow.step` asserts, after which
both of its branches return a triple (`isSome`); for `TicTacToe`, the
action is in range and `state[action] == 0` — the condition
`TicTacToe.step` asserts. -/
theorem valid_action_passes_asserts
    (ns : List Int) (na : Nat) (ts : List Int) (ta : Nat)
    (hn : (Narrow.valid ns).getD na false = true)
    (ht : (TicTacToe.valid ts).getD ta false = true) :
    ((na : Int) < ns.getD 0 0 ∧ (Narrow.step ns na).isSome = true) ∧
    (ta < ts.length ∧ ts.getD ta 1 = 0) := by
  obtain ⟨-, hlt⟩ := narrow_valid_getD ns na hn
  obtain ⟨hta, hcell⟩ := tictactoe_valid_getD ts ta ht
  refine ⟨⟨hlt, ?_⟩, hta, hcell⟩
  rw [Narrow.step, if_pos hlt]
  by_cases h0 : na = 0 <;> simp [h0]

/-- C8 witness: the theorem at `Narrow` state `(3,)` with action `1` and the
`TicTacToe` start board with action `4`. -/
theorem valid_action_passes_asserts_witness :
    ((1 : Int) < ([3] : List Int).getD 0 0 ∧
      (Narrow.step [3] 1).isSome = true) ∧
    (4 < TicTacToe.START.length ∧ TicTacToe.START.getD 4 1 = 0) :=
  valid_action_passes_asserts [3] 1 TicTacToe.START 4 (by decide) (by decide)

/-- Helper: a chain of `Narrow` continuation steps from `(n,)` with `n ≥ 1`
makes strictly fewer than `n` steps: each continuation goes to `(a,)` with
`1 ≤ a < n`. -/
theorem narrow_chain_length (acts : List Nat) :
    ∀ (n : Int), 1 ≤ n → ∀ (s2 : List Int),
      Narrow.chain [n] acts = some s2 → (acts.length : Int) < n := by
  induction acts with
  | nil => intro n hn s2 _; simpa using hn
  | cons a rest ih =>
    intro n hn s2 h
    rw [Narrow.chain] at h
    by_cases hv : (Narrow.valid [n]).getD a false = true
    · rw [if_pos hv] at h
      obtain ⟨-, hlt⟩ := narrow_valid_getD [n] a hv
      by_cases h0 : a = 0
      · subst h0
        have hstep : Narrow.step [n] 0 = some (none, none, some (-1)) := by
          rw [Narrow.step, if_pos (by simpa using hlt), if_pos rfl]
        rw [hstep] at h
        exact absurd h (by simp)
      · have hstep : Narrow.step [n] a =
            some (some [(a : Int)], some 1, none) := by
          rw [Narrow.step, if_pos (by simpa using hlt), if_neg h0]
        rw [hstep] at h
        have h1a : (1 : Int) ≤ (a : Int) := by
          exact_mod_cast Nat.one_le_iff_ne_zero.mpr h0
        have hrest : ((rest.length : Int)) < (a : Int) := ih (a : Int) h1a s2 h
        have : (a : Int) < n := by simpa using hlt
        simp only [List.length_cons]
        push_cast
        omega
    · rw [if_neg hv] at h
      exact absurd h (by simp)

/-- C9: from any `Narrow` state `(n,)` with `n ≥ 1`, every continuation
step taken on an action marked `true` by `valid` moves to `(action,)` with
`1 ≤ action < n`, and any chain of valid continuation steps from `(n,)` has
length strictly below `n` — so play reaches a terminal result after at most
`n` steps. -/
theorem narrow_play_terminates (n : Int) (hn : 1 ≤ n) :
    (∀ a : Nat, (Narrow.valid [n]).getD a false = true → a ≠ 0 →
      Narrow.step [n] a = some (some [(a : Int)], some 1, none) ∧
      1 ≤ (a : Int) ∧ (a : Int) < n) ∧
    (∀ (acts : List Nat) (s2 : List Int),
      Narrow.chain [n] acts = some s2 → (acts.length : Int) < n) := by
  constructor
  · intro a hv h0
    obtain ⟨-, hlt⟩ := narrow_valid_getD [n] a hv
    have hltn : (a : Int) < n := by simpa using hlt
    refine ⟨?_, ?_, hltn⟩
    · rw [Narrow.step, if_pos (by simpa using hlt), if_neg h0]
    · exact_mod_cast Nat.one_le_iff_ne_zero.mpr h0
  · intro acts s2 h
    exact narrow_chain_length acts n hn s2 h

/-- C9 witness: the theorem at `n = 2`, action `1`. -/
theorem narrow_play_terminates_witness :
    Narrow.step [(2 : Int)] 1 = some (some [(1 : Int)], some 1, none) ∧
    1 ≤ ((1 : Nat) : Int) ∧ ((1 : Nat) : Int) < 2 :=
  (narrow_play_terminates 2 (by decide)).1 1 (by decide) (by decide)

/-- Helper: summing an elementwise quotient is dividing the sum. -/
theorem sum_map_div (l : List ℚ) (s : ℚ) :
    (l.map (fun v => v / s)).sum = l.sum / s := by
  induction l with
  | nil => simp
  | cons a t ih => simp [ih, add_div]

/-- Helper: every masked exponential is nonnegative when the mask entries
are `0` or `1` and `E` is positive. -/
theorem maskedExp_nonneg (E : ℚ → ℚ) (x mask : List ℚ)
    (hE : ∀ y, 0 < E y) (hmask : ∀ m ∈ mask, m = 0 ∨ m = 1) :
    ∀ v ∈ Util.maskedExp E x mask, 0 ≤ v := by
  intro v hv
  obtain ⟨i, hi, rfl⟩ := List.mem_iff_getElem.mp hv
  have hlen2 := hi
  simp only [Util.maskedExp, List.length_zipWith] at hlen2
  have hix : i < x.length := by omega
  have him : i < mask.length := by omega
  simp only [Util.maskedExp, List.getElem_zipWith]
  have hmi : mask[i] ∈ mask := by
    apply List.getElem_mem
  rcases hmask _ hmi with h | h <;> rw [h]
  · simp
  · simpa using le_of_lt (hE _)

/-- C6: for every score vector, positive model `E` of `exp`, and 0/1 mask
of the same length with a `1` at some position `j`: the `softmax` output
sums to exactly `1`, and every position whose mask entry is `0` receives
probability exactly `0` (it is `E (x i - max x) * 0 = 0` divided by the
positive normalizer). -/
theorem softmax_normalizes (E : ℚ → ℚ) (x mask : List ℚ) (j : Nat)
    (hE : ∀ y, 0 < E y)
    (hlen : mask.length = x.length)
    (hmask : ∀ m ∈ mask, m = 0 ∨ m = 1)
    (hj : j < mask.length) (hj1 : mask.getD j 0 = 1) :
    (Util.softmax E x mask).sum = 1 ∧
    ∀ i, i < mask.length → mask.getD i 0 = 0 →
      (Util.softmax E x mask).getD i 1 = 0 := by
  have hel : (Util.maskedExp E x mask).length = mask.length := by
    rw [Util.maskedExp, List.length_zipWith, hlen]
    exact min_self _
  have h0 : ∀ v ∈ Util.maskedExp E x mask, 0 ≤ v :=
    maskedExp_nonneg E x mask hE hmask
  have hj2 : j < (Util.maskedExp E x mask).length := by omega
  have hjx : j < x.length := by omega
  have hepos : 0 < (Util.maskedExp E x mask)[j] := by
    simp only [Util.maskedExp, List.getElem_zipWith]
    rw [← List.getD_eq_getElem mask 0 hj, hj1, mul_one]
    exact hE _
  have hsum : 0 < (Util.maskedExp E x mask).sum :=
    lt_of_lt_of_le hepos
      (List.single_le_sum h0 _ (List.getElem_mem hj2))
  constructor
  · rw [Util.softmax, sum_map_div]
    exact div_self (ne_of_gt hsum)
  · intro i hi hi0
    have hi2 : i < (Util.maskedExp E x mask).length := by omega
    have hix : i < x.length := by omega
    rw [Util.softmax]
    rw [List.getD_eq_getElem _ _ (by simpa using hi2), List.getElem_map]
    have hei : (Util.maskedExp E x mask)[i] = 0 := by
      simp only [Util.maskedExp, List.getElem_zipWith]
      rw [← List.getD_eq_getElem mask 0 hi, hi0, mul_zero]
    rw [hei, zero_div]

/-- C6 witness: the theorem at `E = const 1`, scores `[0, 5]`, mask
`[1, 0]`, nonzero mask position `0`. -/
theorem softmax_normalizes_witness :
    (Util.softmax (fun _ => 1) [0, 5] [1, 0]).sum = 1 ∧
    ∀ i, i < ([1, 0] : List ℚ).length → ([1, 0] : List ℚ).getD i 0 = 0 →
      (Util.softmax (fun _ => 1) [0, 5] [1, 0]).getD i 1 = 0 :=
  softmax_normalizes (fun _ => 1) [0, 5] [1, 0] 0 (fun _ => one_pos)
    (by decide) (by decide) (by decide) (by decide)

/-- C5 (counter-evidence): `softmax` with an all-zero mask does not raise.
The masked exponentials are all `0`, their sum — the normalization
denominator — is `0`, and the function still returns an elementwise
quotient (IEEE `0/0 = NaN`, rendered `0` by Lean's total division) instead
of signalling a domain error. -/
theorem softmax_all_zero_mask_returns (E : ℚ → ℚ) :
    (Util.maskedExp E [0, 0] [0, 0]).sum = 0 ∧
    Util.softmax E [0, 0] [0, 0] = [0, 0] := by
  constructor <;> simp [Util.softmax, Util.maskedExp]
